import Mathlib

set_option linter.unusedVariables false

/-!
Verification development for the message-agent host.

Shallow embedding of the components the claims concern:
  * the segmented file history store (src/src/history/file-history-store.ts),
  * the heartbeat payload builder (HeartbeatService.buildPayload),
  * slash-command skill dispatch (SkillHandler.dispatch, AgentService.handleMessage),
  * the LLM tool-use loop (AgentService.runToolLoop),
  * the completeness verification rule (completenessRule),
  * the recovery notifier (RecoveryNotifier.checkAndNotify),
  * task persistence and startup task recovery (TaskPersistence, TaskRecoveryService).

Machine integers are modelled as Nat (all quantities involved are small
non-negative counters), JavaScript strings as Lean String (one Char per
UTF-16 code unit in the ranges exercised here), fallible operations as
Option / Except, and the filesystem as explicit maps threaded through the
functions.  Wall-clock timestamps, freshly minted file names and the byte
counts returned by appendJsonLine are inputs of the model (the properties
proved do not depend on their values).
-/

namespace MessageAgent

/-- Truthiness of a JavaScript optional string: undefined and the empty
string are falsy, every other string is truthy. -/
def truthyStr : Option String → Bool
  | none => false
  | some s => s != ""

/-- JavaScript whitespace (the characters matched by the regex class \s and
removed by String.prototype.trim / trimEnd): space, tab, LF, CR, vertical
tab, form feed, NBSP, BOM. -/
def jsWhitespace (c : Char) : Bool :=
  c == ' ' || c == '\t' || c == '\n' || c == '\r' ||
  c == Char.ofNat 11 || c == Char.ofNat 12 || c == Char.ofNat 160 || c == Char.ofNat 0xFEFF

/-- JavaScript String.prototype.trimEnd. -/
def jsTrimEnd (s : String) : String :=
  String.mk ((s.data.reverse.dropWhile jsWhitespace).reverse)

/-- JavaScript String.prototype.trimStart. -/
def jsTrimStart (s : String) : String :=
  String.mk (s.data.dropWhile jsWhitespace)

/-- JavaScript String.prototype.trim. -/
def jsTrim (s : String) : String :=
  jsTrimEnd (jsTrimStart s)

/-- JavaScript String.prototype.startsWith for a literal prefix pattern. -/
def jsStartsWith (s pat : String) : Bool :=
  pat.data.isPrefixOf s.data

/-- JavaScript String.prototype.slice(n) for non-negative n. -/
def jsDrop (s : String) (n : Nat) : String :=
  String.mk (s.data.drop n)

/-- Fuel-bounded kernel of global literal replacement: scans left to right,
replacing each non-overlapping occurrence of pat.  Fuel is the length of the
scanned list, enough because every step consumes at least one character for
the non-empty patterns used here. -/
def replaceAllAux (pat repl : List Char) : Nat → List Char → List Char
  | _, [] => []
  | 0, l => l
  | fuel + 1, c :: rest =>
    if pat.isPrefixOf (c :: rest) then
      repl ++ replaceAllAux pat repl fuel ((c :: rest).drop pat.length)
    else
      c :: replaceAllAux pat repl fuel rest

/-- JavaScript s.replace(/PAT/g, repl) for a literal pattern PAT and a
replacement free of dollar escape sequences (the only replacements the
theorems below instantiate are such literals). -/
def jsReplaceAll (s pat repl : String) : String :=
  String.mk (replaceAllAux pat.data repl.data s.data.length s.data)

/-- Role of a chat message (ChatMessage.role in src/src/llm). -/
inductive Role where
  | system
  | user
  | assistant
  | tool
deriving DecidableEq, Repr

/-- LLM-layer chat message: role, content and an optional toolCallId
(src/src/llm ChatMessage). -/
structure ChatMessage where
  role : Role
  content : String
  toolCallId : Option String := none
deriving DecidableEq, Repr

/-- Persisted history line (HistoryEntry in src/unnamed/part_004 storage
types): per-conversation 1-based seq, ISO timestamp, role, content and
optional metadata. -/
structure HistoryEntry where
  seq : Nat
  ts : String
  role : Role
  content : String
  toolCallId : Option String := none
  senderId : Option String := none
  platformMessageId : Option String := none
  taskId : Option String := none
deriving DecidableEq, Repr

/-- Metadata attached to an appended message (MessageMetadata). -/
structure MessageMetadata where
  senderId : Option String := none
  platformMessageId : Option String := none
  taskId : Option String := none
deriving DecidableEq, Repr

/-- Per-segment metadata persisted in _index.json (SegmentMeta). -/
structure SegmentMeta where
  file : String
  firstSeq : Nat
  lastSeq : Nat
  count : Nat
  sizeBytes : Nat
  startedAt : String
  endedAt : String
deriving DecidableEq, Repr

/-- The segment index persisted as _index.json (SegmentIndex). -/
structure SegmentIndex where
  nextSeq : Nat
  segments : List SegmentMeta
deriving DecidableEq, Repr

/-- Constructor parameters of FileHistoryStore. -/
structure HistoryConfig where
  maxMessages : Nat := 100
  maxSegmentSizeBytes : Nat := 524288
  maxSegments : Nat := 20
deriving DecidableEq, Repr

/-- Filesystem state of one conversation directory: the persisted index,
the JSONL segment files (name mapped to the list of entries its lines
decode to; none when the file does not exist), and whether the directory
itself exists. -/
structure ConvStore where
  index : SegmentIndex
  files : String → Option (List HistoryEntry)
  dirExists : Bool

/-- Conversation directory before any write: no directory, empty index. -/
def emptyConvStore : ConvStore :=
  { index := { nextSeq := 1, segments := [] }, files := fun _ => none, dirExists := false }

/-- Inputs of one addMessage call that the store does not compute itself:
the message and metadata, the wall-clock ISO timestamp, the timestamp-named
file allocated on rollover, and the byte count appendJsonLine reports for
the serialised line. -/
structure AddOp where
  msg : ChatMessage
  meta : MessageMetadata := {}
  now : String := ""
  newFile : String := ""
  bytesWritten : Nat := 0
deriving Repr

/-- Removes the oldest segments while more than maxSegments remain,
unlinking each evicted segment file; returns the kept segments, the files
after the unlinks, and the evicted segment metas in eviction order
(the while loop at the end of FileHistoryStore.addMessage). -/
def pruneSegments (maxSegments : Nat) :
    List SegmentMeta → (String → Option (List HistoryEntry)) →
    List SegmentMeta × (String → Option (List HistoryEntry)) × List SegmentMeta
  | [], files => ([], files, [])
  | s :: rest, files =>
    if maxSegments < rest.length + 1 then
      let files' := fun n => if n = s.file then none else files n
      let r := pruneSegments maxSegments rest files'
      (r.1, r.2.1, s :: r.2.2)
    else (s :: rest, files, [])

/-- Unlinks the files of the given segments (the eviction unlinks of the
prune loop), leaving the rest of the file map unchanged. -/
def unlinkFiles (segs : List SegmentMeta) (files : String → Option (List HistoryEntry)) :
    String → Option (List HistoryEntry) :=
  match segs with
  | [] => files
  | s :: rest => unlinkFiles rest (fun n => if n = s.file then none else files n)

/-- The history entry addMessage builds for a message at the given seq. -/
def mkEntry (seq : Nat) (op : AddOp) : HistoryEntry :=
  { seq := seq, ts := op.now, role := op.msg.role, content := op.msg.content,
    toolCallId := op.msg.toolCallId, senderId := op.meta.senderId,
    platformMessageId := op.meta.platformMessageId, taskId := op.meta.taskId }

/-- FileHistoryStore.addMessage: build the entry at seq = nextSeq, roll
over to a fresh segment when there is none or the last one is full, append
the line to the segment file, update the segment meta and nextSeq, prune
segments over the limit, and persist the index.  Returns the new store and
the list of evicted segments. -/
def FileHistoryStore.addMessage (cfg : HistoryConfig) (st : ConvStore) (op : AddOp) :
    ConvStore × List SegmentMeta :=
  let index := st.index
  let entry : HistoryEntry := mkEntry index.nextSeq op
  let newSeg : SegmentMeta :=
    { file := op.newFile, firstSeq := entry.seq, lastSeq := entry.seq, count := 0,
      sizeBytes := 0, startedAt := entry.ts, endedAt := entry.ts }
  let needNew : Bool :=
    match index.segments.getLast? with
    | none => true
    | some s => decide (cfg.maxSegmentSizeBytes ≤ s.sizeBytes)
  let segments1 := if needNew then index.segments ++ [newSeg] else index.segments
  let cur := segments1.getLast?.getD newSeg
  let files1 := fun n =>
    if n = cur.file then some ((st.files cur.file).getD [] ++ [entry]) else st.files n
  let cur' : SegmentMeta :=
    { cur with lastSeq := entry.seq, count := cur.count + 1,
               sizeBytes := cur.sizeBytes + op.bytesWritten, endedAt := entry.ts }
  let segments2 := segments1.dropLast ++ [cur']
  let pruned := pruneSegments cfg.maxSegments segments2 files1
  ({ index := { nextSeq := index.nextSeq + 1, segments := pruned.1 },
     files := pruned.2.1, dirExists := true }, pruned.2.2)

/-- The segment meta a rollover creates, after the freshly appended entry
has been accounted: it covers exactly seq nextSeq, with one line of
bytesWritten bytes (0 + bytesWritten mirrors the in-place size update). -/
def rollSeg (st : ConvStore) (op : AddOp) : SegmentMeta :=
  { file := op.newFile, firstSeq := st.index.nextSeq, lastSeq := st.index.nextSeq,
    count := 1, sizeBytes := 0 + op.bytesWritten, startedAt := op.now, endedAt := op.now }

/-- The last segment meta after an in-place append of the new entry. -/
def stayedSeg (st : ConvStore) (op : AddOp) (cur : SegmentMeta) : SegmentMeta :=
  { cur with lastSeq := st.index.nextSeq, count := cur.count + 1,
             sizeBytes := cur.sizeBytes + op.bytesWritten, endedAt := op.now }

/-- The file map after appendJsonLine wrote the new entry to the named
segment file. -/
def appendTo (st : ConvStore) (op : AddOp) (name : String) :
    String → Option (List HistoryEntry) :=
  fun n =>
    if n = name then some ((st.files name).getD [] ++ [mkEntry st.index.nextSeq op])
    else st.files n

/-- One fold step of a run of addMessage calls: apply the call and append
its evicted segments to the accumulator. -/
def addStep (cfg : HistoryConfig) (acc : ConvStore × List SegmentMeta) (op : AddOp) :
    ConvStore × List SegmentMeta :=
  let r := FileHistoryStore.addMessage cfg acc.1 op
  (r.1, acc.2 ++ r.2)

/-- Runs a sequence of addMessage calls from the empty store, accumulating
the evicted segments. -/
def runAdds (cfg : HistoryConfig) (ops : List AddOp) : ConvStore × List SegmentMeta :=
  ops.foldl (addStep cfg) (emptyConvStore, [])

/-- The newest-first segment walk of getMessages: reads whole segment files
(skipping missing ones) and prepends their entries until at least max
entries are collected.  The argument list is the segment list reversed. -/
def readSegments (files : String → Option (List HistoryEntry)) (max : Nat) :
    List SegmentMeta → List HistoryEntry → List HistoryEntry
  | [], acc => acc
  | seg :: rest, acc =>
    if acc.length < max then
      match files seg.file with
      | none => readSegments files max rest acc
      | some entries => readSegments files max rest (entries ++ acc)
    else acc

/-- Conversion of a persisted entry back to a ChatMessage; toolCallId is
carried over only when truthy (entryToChatMessage). -/
def entryToChatMessage (entry : HistoryEntry) : ChatMessage :=
  { role := entry.role, content := entry.content,
    toolCallId := if truthyStr entry.toolCallId then entry.toolCallId else none }

/-- FileHistoryStore.getMessages: empty when the directory or index is
absent, otherwise collect entries newest-segment-first, keep the trailing
limit entries, and convert them. -/
def FileHistoryStore.getMessages (cfg : HistoryConfig) (st : ConvStore) (limit : Option Nat) :
    List ChatMessage :=
  if !st.dirExists then []
  else if st.index.segments.isEmpty then []
  else
    let max := limit.getD cfg.maxMessages
    let collected := readSegments st.files max st.index.segments.reverse []
    let trimmed := collected.drop (collected.length - max)
    trimmed.map entryToChatMessage

/-- Checks that a segment list is a contiguous chain: the head starts at
the given seq, every segment has firstSeq ≤ lastSeq, and each next segment
starts right after the previous one ends. -/
def chainOk : Nat → List SegmentMeta → Bool
  | _, [] => true
  | f, s :: rest => s.firstSeq == f && decide (s.firstSeq ≤ s.lastSeq) && chainOk (s.lastSeq + 1) rest

/-- The seq expected to follow a chain of segments started at f. -/
def expectNext (f : Nat) : List SegmentMeta → Nat
  | [] => f
  | s :: rest => expectNext (s.lastSeq + 1) rest

/-- The firstSeq of the first segment, 1 for an empty list. -/
def headFirst (segments : List SegmentMeta) : Nat :=
  match segments with
  | [] => 1
  | s :: _ => s.firstSeq

/-- Contiguity of a segment list together with its nextSeq: seq ranges are
ascending, contiguous and non-overlapping, and nextSeq is the last
lastSeq + 1 (nextSeq = 1 when there is no segment). -/
def segsContiguous (segments : List SegmentMeta) (nextSeq : Nat) : Bool :=
  match segments with
  | [] => nextSeq == 1
  | s :: rest =>
    chainOk s.firstSeq (s :: rest) &&
      ((s :: rest).getLast (List.cons_ne_nil s rest)).lastSeq + 1 == nextSeq

/-- Contiguity part of the index invariant. -/
def indexContiguous (idx : SegmentIndex) : Bool :=
  segsContiguous idx.segments idx.nextSeq

/-- The segment-list property exactly as the claim states it: contiguity,
the nextSeq law, and additionally firstSeq = 1 for the first segment. -/
def claimC1Seg (segments : List SegmentMeta) (nextSeq : Nat) : Bool :=
  segsContiguous segments nextSeq &&
    (match segments with
     | [] => true
     | s :: _ => s.firstSeq == 1)

/-- The index property exactly as the claim states it. -/
def claimC1Index (idx : SegmentIndex) : Bool :=
  claimC1Seg idx.segments idx.nextSeq

/-- Inductive invariant of the append path: the segment list is a chain
from its own head and nextSeq is the seq expected after it (1 when the
list is empty). -/
def segsInv (segments : List SegmentMeta) (nextSeq : Nat) : Prop :=
  chainOk (headFirst segments) segments = true ∧
  nextSeq = expectNext (headFirst segments) segments

/-- Channel entry of the heartbeat payload (ChannelStatusProvider item in
src/unnamed/part_002). -/
structure ChannelStatusInfo where
  id : String
  type : String
  status : String
  error : Option String := none
deriving DecidableEq, Repr

/-- Heartbeat payload (HeartbeatPayload in src/unnamed/part_002). -/
structure HeartbeatPayload where
  pid : Nat
  timestamp : Nat
  uptimeSeconds : Nat
  status : String
  channels : List ChannelStatusInfo
  memoryMB : Nat
deriving DecidableEq, Repr

/-- HeartbeatService.buildPayload: status is error when any channel errs,
degraded when the list is non-empty and not every channel is connected,
ok otherwise.  pid, timestamp, uptime and memory are process inputs. -/
def HeartbeatService.buildPayload (pid timestamp uptimeSeconds memoryMB : Nat)
    (channels : List ChannelStatusInfo) : HeartbeatPayload :=
  let allConnected := decide (0 < channels.length) && channels.all (fun c => c.status == "connected")
  let anyError := channels.any (fun c => c.status == "error")
  let status :=
    if anyError then "error"
    else if !allConnected && decide (0 < channels.length) then "degraded"
    else "ok"
  { pid := pid, timestamp := timestamp, uptimeSeconds := uptimeSeconds,
    status := status, channels := channels, memoryMB := memoryMB }

/-- The status rule exactly as the claim words it: error if some channel is
error, else degraded if some non-connecting channel is not connected, else
ok. -/
def claimC2Status (channels : List ChannelStatusInfo) : String :=
  if channels.any (fun c => c.status == "error") then "error"
  else if channels.any (fun c => c.status != "connecting" && c.status != "connected") then "degraded"
  else "ok"

/-- The status rule amended to what the code computes: error if some
channel is error, else degraded if the list is non-empty and some channel
(connecting included) is not connected, else ok. -/
def amendedC2Status (channels : List ChannelStatusInfo) : String :=
  if channels.any (fun c => c.status == "error") then "error"
  else if decide (0 < channels.length) && channels.any (fun c => c.status != "connected") then "degraded"
  else "ok"

/-- Origin of a skill definition (SkillDefinition.source). -/
inductive SkillSource where
  | builtin
  | skillmd
deriving DecidableEq, Repr

/-- Skill definition as stored in the registry (src/src/types/skill.ts).
hasExecute records whether a programmatic executor is installed; the
executor body itself is irrelevant to the dispatch control flow proved
about. -/
structure SkillDefinition where
  name : String
  description : String := ""
  userInvocable : Bool := true
  argumentHint : Option String := none
  disableModelInvocation : Bool := false
  instructions : Option String := none
  source : SkillSource := SkillSource.builtin
  hasExecute : Bool := false
deriving DecidableEq, Repr

/-- Inbound normalised message (src/src/types/message.ts). -/
structure NormalizedMessage where
  id : String
  channelId : String
  conversationId : String
  senderId : String
  text : String
  timestamp : Nat
  senderName : Option String := none
  platformMessageId : Option String := none
deriving DecidableEq, Repr

/-- SkillHandler.parseSlashCommand: the text must start with a slash
followed by at least one non-whitespace character; the name is the maximal
non-whitespace run, the argument text is the trimmed remainder. -/
def SkillHandler.parseSlashCommand (text : String) : Option (String × String) :=
  match text.data with
  | [] => none
  | c :: rest =>
    if c == '/' then
      let nameChars := rest.takeWhile (fun ch => !jsWhitespace ch)
      if nameChars.isEmpty then none
      else
        let after := rest.drop nameChars.length
        some (String.mk nameChars, jsTrim (String.mk (after.dropWhile jsWhitespace)))
    else none

/-- Substitution of every occurrence of $ARGUMENTS in a skill body: the
replacement is the argument text, or the given fallback literal when the
argument text is empty. -/
def substituteArguments (instructions args fallback : String) : String :=
  jsReplaceAll instructions "$ARGUMENTS" (if args == "" then fallback else args)

/-- Result of SkillHandler.dispatch, one constructor per return site:
not handled, handled by a programmatic (builtin) executor, or handled by a
SKILL.md body whose instructions (after substitution) are returned. -/
inductive SkillDispatch where
  | notHandled
  | builtinHandled (skillName : String)
  | skillmdHandled (skillName : String) (args : String) (instructions : String)
deriving DecidableEq, Repr

/-- SkillHandler.dispatch over a registry lookup function: parse the slash
command, require a registered user-invocable skill, prefer the
programmatic executor, otherwise return the substituted instructions when
the skill has a truthy instructions body, otherwise report not handled. -/
def SkillHandler.dispatch (get : String → Option SkillDefinition) (text : String) : SkillDispatch :=
  match SkillHandler.parseSlashCommand text with
  | none => SkillDispatch.notHandled
  | some (name, args) =>
    match get name with
    | none => SkillDispatch.notHandled
    | some skill =>
      if !skill.userInvocable then SkillDispatch.notHandled
      else if skill.hasExecute then SkillDispatch.builtinHandled name
      else if truthyStr skill.instructions then
        SkillDispatch.skillmdHandled name args
          (substituteArguments (skill.instructions.getD "") args "(no arguments provided)")
      else SkillDispatch.notHandled

/-- The route AgentService.handleMessage takes for a message: drop on an
unknown channel, synchronous builtin reply, background skill task running
one completion with the given system and user prompts, or the normal
conversation pipeline submitted as a background task. -/
inductive HandleAction where
  | unknownChannel
  | builtinReply (skillName : String)
  | skillTask (systemPrompt : String) (userPrompt : String)
  | normalPipeline
deriving DecidableEq, Repr

/-- Control flow of AgentService.handleMessage: resolve the channel,
dispatch the slash command, and fall through to the normal pipeline when
dispatch reports the message unhandled.  The skill task performs a single
LLM completion with the dispatched instructions as system prompt and the
raw message text as user prompt. -/
def AgentService.handleMessage (channelKnown : String → Bool)
    (get : String → Option SkillDefinition) (msg : NormalizedMessage) : HandleAction :=
  if !channelKnown msg.channelId then HandleAction.unknownChannel
  else
    match SkillHandler.dispatch get msg.text with
    | SkillDispatch.builtinHandled n => HandleAction.builtinReply n
    | SkillDispatch.skillmdHandled _ _ instr =>
      if instr != "" then HandleAction.skillTask instr msg.text
      else HandleAction.normalPipeline
    | SkillDispatch.notHandled => HandleAction.normalPipeline

/-- A tool call produced by the LLM: id, namespaced name, and the optional
string field named arguments of its argument object (the only argument
field the loop reads for skill tools; MCP argument payloads are consumed
opaquely by the MCP oracle). -/
structure ToolCall where
  id : String
  name : String
  arguments : Option String := none
deriving DecidableEq, Repr

/-- Result of one LLM chat call: free text plus the optional tool-call
list. -/
structure LLMChatResult where
  content : String
  toolCalls : Option (List ToolCall) := none
deriving DecidableEq, Repr

/-- Oracles for the external services the tool loop calls: the n-th chat
completion, the text of the n-th skill completion, and the outcome of the
n-th MCP tool invocation (error means the invocation threw). -/
structure LLMEnv where
  chat : Nat → LLMChatResult
  completeContent : Nat → String
  mcp : Nat → Except String String

/-- Outcome of a tool-use loop run: returned text, number of chat calls,
number of skill completions, number of MCP invocations, and the final
transcript. -/
structure ToolLoopResult where
  text : String
  chatCalls : Nat
  completeCalls : Nat
  mcpCalls : Nat
  transcript : List ChatMessage
deriving Repr

/-- True when the chat result carries no tool calls (absent or empty
list), the loop's exit condition. -/
def noToolCalls (o : Option (List ToolCall)) : Bool :=
  match o with
  | none => true
  | some l => l.isEmpty

/-- Execution of one tool call inside the loop body: a skill__ name is
resolved in the registry and, when the skill has truthy instructions, runs
one LLM completion (its text is the tool result); a missing or bodiless
skill yields the literal not-found result with no completion; any other
name is an MCP invocation whose thrown error is inlined as a Tool error
result.  Returns the tool result and the updated completion and MCP call
counters. -/
def AgentService.execToolCall (env : LLMEnv) (get : String → Option SkillDefinition)
    (completeCount mcpCount : Nat) (tc : ToolCall) : String × Nat × Nat :=
  if jsStartsWith tc.name "skill__" then
    let skillName := jsDrop tc.name 7
    match get skillName with
    | some skill =>
      if truthyStr skill.instructions then
        (env.completeContent completeCount, completeCount + 1, mcpCount)
      else ("Skill " ++ skillName ++ " not found", completeCount, mcpCount)
    | none => ("Skill " ++ skillName ++ " not found", completeCount, mcpCount)
  else
    match env.mcp mcpCount with
    | Except.ok r => (r, completeCount, mcpCount + 1)
    | Except.error e => ("Tool error: " ++ e, completeCount, mcpCount + 1)

/-- Executes the tool calls of one iteration in order, appending one tool
message per call. -/
def AgentService.execToolCalls (env : LLMEnv) (get : String → Option SkillDefinition) :
    List ToolCall → List ChatMessage → Nat → Nat → List ChatMessage × Nat × Nat
  | [], msgs, completeCount, mcpCount => (msgs, completeCount, mcpCount)
  | tc :: rest, msgs, completeCount, mcpCount =>
    let r := AgentService.execToolCall env get completeCount mcpCount tc
    AgentService.execToolCalls env get rest
      (msgs ++ [{ role := Role.tool, content := r.1, toolCallId := some tc.id }]) r.2.1 r.2.2

/-- Body of AgentService.runToolLoop with fuel = maxIterations minus the
iterations already done.  At fuel 0 the while condition fails and one
final chat call without tools is made; otherwise one chat call is made,
a tool-call-free result returns its text, and a result with tool calls
appends the assistant text, executes every call, and iterates. -/
def AgentService.toolLoopGo (env : LLMEnv) (get : String → Option SkillDefinition) :
    Nat → List ChatMessage → Nat → Nat → Nat → ToolLoopResult
  | 0, msgs, chatCount, completeCount, mcpCount =>
    let r := env.chat chatCount
    { text := r.content, chatCalls := chatCount + 1, completeCalls := completeCount,
      mcpCalls := mcpCount, transcript := msgs }
  | fuel + 1, msgs, chatCount, completeCount, mcpCount =>
    let r := env.chat chatCount
    if noToolCalls r.toolCalls then
      { text := r.content, chatCalls := chatCount + 1, completeCalls := completeCount,
        mcpCalls := mcpCount, transcript := msgs }
    else
      let calls := r.toolCalls.getD []
      let msgs1 := msgs ++ [{ role := Role.assistant, content := r.content }]
      let e := AgentService.execToolCalls env get calls msgs1 completeCount mcpCount
      AgentService.toolLoopGo env get fuel e.1 (chatCount + 1) e.2.1 e.2.2

/-- AgentService.runToolLoop on a starting transcript. -/
def AgentService.runToolLoop (env : LLMEnv) (get : String → Option SkillDefinition)
    (maxIterations : Nat) (messages : List ChatMessage) : ToolLoopResult :=
  AgentService.toolLoopGo env get maxIterations messages 0 0 0

/-- Verification ratings (VerificationRating). -/
inductive VerificationRating where
  | GOOD
  | NEEDS_FIX
  | REDO
deriving DecidableEq, Repr

/-- Result returned by a verification rule on failure; the rule verifier
always attaches confidence 1.0 (represented by the unit value here). -/
structure VerificationFailure where
  rating : VerificationRating
  feedback : String
deriving DecidableEq, Repr

/-- The refusal prefixes of completenessRule: the two case-insensitive
regexes anchored at the start, expanded to their literal alternatives. -/
def refusalMatch (s : String) : Bool :=
  let l := String.mk (s.data.map Char.toLower)
  let apos := String.mk [Char.ofNat 39]
  (["i" ++ apos ++ "m ", "i am "].any fun p =>
    ["sorry", "afraid", "unable"].any fun w => jsStartsWith l (p ++ w)) ||
  (["i can" ++ apos ++ "t ", "i cannot "].any fun p =>
    ["help", "assist", "do"].any fun w => jsStartsWith l (p ++ w))

/-- The terminator character class of completenessRule: period, bang,
question mark, newline, backtick, double quote, closing paren, closing
bracket. -/
def terminatorChars : List Char :=
  ['.', '!', '?', '\n', Char.ofNat 96, Char.ofNat 34, ')', ']']

/-- Whether a string ends with a terminator character. -/
def endsWithTerminator (s : String) : Bool :=
  match s.data.getLast? with
  | none => false
  | some c => terminatorChars.contains c

/-- completenessRule.check (src/src/agent/verification rules): empty
response is a REDO, a refusal-prefixed response is a NEEDS_FIX, a response
over 100 characters whose trailing-whitespace-stripped text lacks a
terminator is a truncation NEEDS_FIX; otherwise the rule passes (none). -/
def completenessRule (request response : String) : Option VerificationFailure :=
  if response == "" || (jsTrim response).length == 0 then
    some { rating := VerificationRating.REDO, feedback := "Response is empty" }
  else if refusalMatch (jsTrim response) then
    some { rating := VerificationRating.NEEDS_FIX, feedback := "Response appears to be a refusal" }
  else if decide (100 < response.length) && !endsWithTerminator (jsTrimEnd response) then
    some { rating := VerificationRating.NEEDS_FIX,
           feedback := "Response appears truncated mid-sentence" }
  else none

/-- Recovery event written by the watchdog (RecoveryEvent). -/
structure RecoveryEvent where
  timestamp : Nat
  reason : String
  restartCount : Nat
  watchdogPid : Nat
deriving DecidableEq, Repr

/-- State of the recovery-event file at startup: whether it exists and, if
so, what JSON.parse of its content yields (none when malformed). -/
structure RecoveryFsState where
  fileExists : Bool
  parsedEvent : Option RecoveryEvent
deriving DecidableEq, Repr

/-- Observable outcome of RecoveryNotifier.checkAndNotify: whether the
event file was unlinked and which (channelId, conversationId) targets a
send was attempted for. -/
structure NotifyOutcome where
  fileRemoved : Bool
  attempted : List (String × String)
deriving DecidableEq, Repr

/-- Splitting of one notify target on its first colon into channelId and
conversationId, none when no colon is present. -/
def splitTarget (target : String) : Option (String × String) :=
  match target.data.findIdx? (fun c => c == ':') with
  | none => none
  | some i => some (String.mk (target.data.take i), String.mk (target.data.drop (i + 1)))

/-- RecoveryNotifier.checkAndNotify: returns immediately when no notify
targets are configured or the event file is missing; removes the file and
sends nothing when it is malformed; otherwise attempts a send per
well-formed target with a known channel (per-target send failures are
caught and do not change the control flow) and removes the file.  The
sendOk oracle records which sends would succeed; the outcome does not
depend on it. -/
def RecoveryNotifier.checkAndNotify (channelKnown : String → Bool)
    (sendOk : String → String → Bool) (st : RecoveryFsState)
    (notifyTargets : List String) : NotifyOutcome :=
  if notifyTargets.length == 0 then { fileRemoved := false, attempted := [] }
  else if !st.fileExists then { fileRemoved := false, attempted := [] }
  else
    match st.parsedEvent with
    | none => { fileRemoved := true, attempted := [] }
    | some _ =>
      let attempted := notifyTargets.foldl
        (fun acc target =>
          match splitTarget target with
          | none => acc
          | some (channelId, conversationId) =>
            if channelKnown channelId then acc ++ [(channelId, conversationId)] else acc)
        []
      { fileRemoved := true, attempted := attempted }

/-- Task pipeline phases (TaskPhase). -/
inductive TaskPhase where
  | received
  | history_written
  | llm_calling
  | verifying
  | responding
  | completed
  | failed
deriving DecidableEq, Repr

/-- Persisted task file content (PersistedTask); the original message is
reduced to the fields recovery reads. -/
structure PersistedTask where
  id : String
  channelId : String
  conversationId : String
  originalText : String := ""
  platformMessageId : Option String := none
  phase : TaskPhase
  error : Option String := none
  pendingResponse : Option String := none
deriving DecidableEq, Repr

/-- State of the task store: the enabled flag and the two file trees,
each an association list from file key (the task id the file is named by)
to parsed content.  Wall-clock updatedAt refreshes and the per-day
completed subdirectory are not tracked; they do not affect file counts. -/
structure TaskStoreState where
  enabled : Bool
  active : List (String × PersistedTask)
  completed : List (String × PersistedTask)
deriving Repr

/-- Lookup of an active or completed task file by id. -/
def lookupTask (l : List (String × PersistedTask)) (k : String) : Option PersistedTask :=
  (l.find? (fun p => p.1 == k)).map (fun p => p.2)

/-- Removal of the task file with the given id (unlinkSync). -/
def eraseTask (l : List (String × PersistedTask)) (k : String) : List (String × PersistedTask) :=
  l.eraseP (fun p => p.1 == k)

/-- atomicWriteJson semantics on a tree: overwrite the file with this key
if present, create it otherwise. -/
def putTask (l : List (String × PersistedTask)) (k : String) (t : PersistedTask) :
    List (String × PersistedTask) :=
  if (l.find? (fun p => p.1 == k)).isSome then
    l.map (fun p => if p.1 == k then (k, t) else p)
  else l ++ [(k, t)]

/-- TaskPersistence.complete: no-op when disabled or the active file is
missing; otherwise write the task under completed/ and unlink the active
file. -/
def TaskPersistence.complete (st : TaskStoreState) (taskId : String) : TaskStoreState :=
  if !st.enabled then st
  else
    match lookupTask st.active taskId with
    | none => st
    | some task =>
      { st with active := eraseTask st.active taskId,
                completed := putTask st.completed taskId task }

/-- TaskPersistence.fail: set phase failed and the error on the active
file, then complete it. -/
def TaskPersistence.fail (st : TaskStoreState) (taskId : String) (error : String) :
    TaskStoreState :=
  if !st.enabled then st
  else
    match lookupTask st.active taskId with
    | none => st
    | some task =>
      let st1 := { st with
        active := putTask st.active taskId
          { task with phase := TaskPhase.failed, error := some error } }
      TaskPersistence.complete st1 taskId

/-- TaskPersistence.listActive: the parsed contents of the active tree
(nothing when disabled).  Files that fail to parse are skipped by the
source with a warning; the model's active tree holds parsed tasks. -/
def TaskPersistence.listActive (st : TaskStoreState) : List PersistedTask :=
  if !st.enabled then [] else st.active.map (fun p => p.2)

/-- Whether TaskRecoveryService.recoverTask attempts a channel send for
this task: early phases and verifying send whenever the channel exists,
responding sends only with a truthy pendingResponse, stale phases never
send. -/
def TaskRecoveryService.sendAttempted (channelKnown : String → Bool) (task : PersistedTask) :
    Bool :=
  match task.phase with
  | TaskPhase.received => channelKnown task.channelId
  | TaskPhase.history_written => channelKnown task.channelId
  | TaskPhase.llm_calling => channelKnown task.channelId
  | TaskPhase.verifying => channelKnown task.channelId
  | TaskPhase.responding => truthyStr task.pendingResponse && channelKnown task.channelId
  | TaskPhase.completed => false
  | TaskPhase.failed => false

/-- TaskRecoveryService.recoverTask: run the phase-dispatched notification
inside a try block and move the task to completed; when the send throws
(sendResult yields an error for this task) fall to the catch block, which
marks the task failed and still moves it to completed. -/
def TaskRecoveryService.recoverTask (channelKnown : String → Bool)
    (sendResult : String → Option String) (st : TaskStoreState) (task : PersistedTask) :
    TaskStoreState :=
  let thrown :=
    if TaskRecoveryService.sendAttempted channelKnown task then sendResult task.id else none
  match thrown with
  | some err => TaskPersistence.fail st task.id ("Recovery failed: " ++ err)
  | none => TaskPersistence.complete st task.id

/-- TaskRecoveryService.recover: list the orphaned tasks once, then recover
each in order. -/
def TaskRecoveryService.recover (channelKnown : String → Bool)
    (sendResult : String → Option String) (st : TaskStoreState) : TaskStoreState :=
  (TaskPersistence.listActive st).foldl
    (TaskRecoveryService.recoverTask channelKnown sendResult) st

/-! Concrete instances used by counterexamples and witnesses. -/

/-- Channel list consisting of one channel still connecting. -/
def connectingOnly : List ChannelStatusInfo :=
  [{ id := "whatsapp", type := "whatsapp", status := "connecting" }]

/-- Registry holding one SKILL.md skill named sum with an $ARGUMENTS
placeholder in its body. -/
def regSumSkill : String → Option SkillDefinition :=
  fun n =>
    if n = "sum" then
      some { name := "sum", instructions := some "Do: $ARGUMENTS", source := SkillSource.skillmd }
    else none

/-- Slash message invoking sum with no argument text. -/
def msgSlashSum : NormalizedMessage :=
  { id := "m1", channelId := "web", conversationId := "c1", senderId := "u1",
    text := "/sum", timestamp := 0 }

/-- Registry holding a registered skill named sum with no instructions
body. -/
def regSumNoBody : String → Option SkillDefinition :=
  fun n => if n = "sum" then some { name := "sum", instructions := none } else none

/-- The skill stored by regSumNoBody. -/
def skSumNoBody : SkillDefinition := { name := "sum", instructions := none }

/-- A tool call targeting the sum skill. -/
def tcSum : ToolCall := { id := "t1", name := "skill__sum", arguments := some "x" }

/-- Chat oracle whose first result requests the sum skill tool and whose
later results carry no tool calls. -/
def envSkillOnce : LLMEnv :=
  { chat := fun n =>
      if n = 0 then { content := "calling", toolCalls := some [tcSum] }
      else { content := "done" },
    completeContent := fun _ => "skill output",
    mcp := fun _ => Except.ok "unused" }

/-- Registry for the C10 witness: a registered user-invocable skill named
foo with neither executor nor instructions body. -/
def regFooHollow : String → Option SkillDefinition :=
  fun n => if n = "foo" then some { name := "foo" } else none

/-- Slash message invoking the unresolvable foo skill. -/
def msgSlashFoo : NormalizedMessage :=
  { id := "m2", channelId := "web", conversationId := "c1", senderId := "u1",
    text := "/foo bar", timestamp := 0 }

/-- One orphaned task in an early phase (its recovery send will throw in
the witness scenario). -/
def taskEarly : PersistedTask :=
  { id := "a", channelId := "web", conversationId := "c", phase := TaskPhase.received }

/-- One orphaned task interrupted while verifying, with a pending
response. -/
def taskVerifying : PersistedTask :=
  { id := "b", channelId := "web", conversationId := "c", phase := TaskPhase.verifying,
    pendingResponse := some "X" }

/-- Task store holding the two orphaned tasks and nothing completed. -/
def taskStoreTwo : TaskStoreState :=
  { enabled := true, active := [("a", taskEarly), ("b", taskVerifying)], completed := [] }

/-- Send oracle that throws for task a and succeeds for task b. -/
def sendFailsForA : String → Option String :=
  fun i => if i = "a" then some "network down" else none

/-- A 101-character response with no terminator character. -/
def resp101 : String := String.mk (List.replicate 101 'a')

/-- An addMessage input with a small serialised size. -/
def smallOp (role : Role) (content now newFile : String) : AddOp :=
  { msg := { role := role, content := content }, now := now, newFile := newFile,
    bytesWritten := 40 }

/-- An addMessage input whose serialised line alone fills a default-size
segment, forcing a rollover on the next append. -/
def hugeOp (i : Nat) : AddOp :=
  { msg := { role := Role.user, content := "big" }, now := "T",
    newFile := "seg" ++ toString i, bytesWritten := 524288 }

/-! Helper lemmas. -/

/-- Any non-connected channel exists exactly when not all channels are
connected. -/
theorem any_bne_connected (channels : List ChannelStatusInfo) :
    (channels.any fun c => c.status != "connected")
      = !(channels.all fun c => c.status == "connected") := by
  induction channels with
  | nil => rfl
  | cons h t ih =>
    simp only [List.any_cons, List.all_cons, Bool.not_and, bne] at ih ⊢
    rw [ih]

/-! Claim C2: heartbeat status aggregation. -/

/-- C2 counterexample: a single channel in status connecting yields
heartbeat status degraded, while the claim's rule (non-connecting channels
only) demands ok. -/
theorem heartbeat_connecting_counterexample :
    (HeartbeatService.buildPayload 7 0 0 0 connectingOnly).status = "degraded" ∧
    claimC2Status connectingOnly = "ok" := by
  constructor <;> decide

/-- C2 amended: the heartbeat status is error when some channel is in
status error; otherwise degraded when the channel list is non-empty and
some channel (a connecting one included) is not connected; otherwise ok. -/
theorem heartbeat_status_amended (pid timestamp uptimeSeconds memoryMB : Nat)
    (channels : List ChannelStatusInfo) :
    (HeartbeatService.buildPayload pid timestamp uptimeSeconds memoryMB channels).status
      = amendedC2Status channels := by
  simp only [HeartbeatService.buildPayload, amendedC2Status]
  cases hE : channels.any (fun c => c.status == "error") with
  | true => simp [hE]
  | false =>
    rw [any_bne_connected]
    cases hL : decide (0 < channels.length) <;>
      cases hA : channels.all (fun c => c.status == "connected") <;>
        simp [hE, hL, hA]

/-! Claim C6: the recovery notifier with an empty target set. -/

/-- C6: with the recovery-event file present and an empty set of notify
targets, checkAndNotify returns before reading or unlinking, so the event
file is left on disk (contradicting the always-remove contract). -/
theorem recovery_notifier_empty_targets_leaves_file :
    (RecoveryNotifier.checkAndNotify (fun _ => true) (fun _ _ => true)
      { fileExists := true,
        parsedEvent := some { timestamp := 0, reason := "heartbeat stale",
                              restartCount := 1, watchdogPid := 42 } }
      []).fileRemoved = false := by
  decide

/-! Claim C7: the completeness rule's truncation check. -/

/-- C7: for a non-empty, non-refusal response, the completeness rule
returns the truncation NEEDS_FIX exactly when the response is longer than
100 characters and its trailing-whitespace-stripped text does not end in
one of the terminator characters. -/
theorem completeness_truncation_iff (request response : String)
    (hne : (jsTrim response).length ≠ 0)
    (href : refusalMatch (jsTrim response) = false) :
    (completenessRule request response
        = some { rating := VerificationRating.NEEDS_FIX,
                 feedback := "Response appears truncated mid-sentence" })
      ↔ (100 < response.length ∧ endsWithTerminator (jsTrimEnd response) = false) := by
  have hr : (response == "") = false := by
    cases hresp : response == "" with
    | false => rfl
    | true =>
      exfalso
      apply hne
      have : response = "" := by simpa using hresp
      rw [this]
      rfl
  have hl : ((jsTrim response).length == 0) = false := by
    simpa using hne
  simp only [completenessRule, hr, hl, Bool.or_self, Bool.false_eq_true, if_false, href]
  cases hc : decide (100 < response.length) && !endsWithTerminator (jsTrimEnd response) with
  | true =>
    simp only [if_true]
    rw [Bool.and_eq_true, decide_eq_true_eq, Bool.not_eq_true'] at hc
    simp [hc]
  | false =>
    simp only [Bool.false_eq_true, if_false]
    constructor
    · intro h
      exact absurd h (by simp)
    · intro ⟨h1, h2⟩
      rw [Bool.and_eq_false_iff] at hc
      rcases hc with hc | hc
      · rw [decide_eq_false_iff_not] at hc
        exact absurd h1 hc
      · have hterm : endsWithTerminator (jsTrimEnd response) = true := by simpa using hc
        rw [h2] at hterm
        cases hterm

/-- C7 witness: a 101-character unterminated response is flagged as
truncated. -/
theorem completeness_truncation_iff_witness :
    completenessRule "why?" resp101
      = some { rating := VerificationRating.NEEDS_FIX,
               feedback := "Response appears truncated mid-sentence" } :=
  (completeness_truncation_iff "why?" resp101 (by decide) (by decide)).mpr (by decide)

/-! Claim C5: LLM-call bound of the tool-use loop. -/

/-- Chat-call bound of the loop body: starting at chatCount with the given
fuel, at most fuel + 1 further chat calls happen. -/
theorem toolLoopGo_chatCalls_le (env : LLMEnv) (get : String → Option SkillDefinition) :
    ∀ (fuel : Nat) (msgs : List ChatMessage) (chatCount completeCount mcpCount : Nat),
      (AgentService.toolLoopGo env get fuel msgs chatCount completeCount mcpCount).chatCalls
        ≤ chatCount + fuel + 1 := by
  intro fuel
  induction fuel with
  | zero => intro msgs c cc mc; simp [AgentService.toolLoopGo]
  | succ n ih =>
    intro msgs c cc mc
    simp only [AgentService.toolLoopGo]
    cases hnc : noToolCalls (env.chat c).toolCalls with
    | true => simp only [if_true]; omega
    | false =>
      simp only [Bool.false_eq_true, if_false]
      exact le_trans (ih _ _ _ _) (by omega)

/-- C5 counterexample: with maxIterations = 1, an iteration whose tool call
is a skill invocation leads to 2 chat calls plus 1 skill completion, so the
loop performs 3 LLM calls, exceeding maxIterations + 1 = 2. -/
theorem toolLoop_total_llm_calls_counterexample :
    ¬ ((AgentService.runToolLoop envSkillOnce regSumSkill 1 []).chatCalls
        + (AgentService.runToolLoop envSkillOnce regSumSkill 1 []).completeCalls ≤ 1 + 1) := by
  decide

/-- C5 amended: one invocation of the tool-use loop terminates and makes
at most maxIterations + 1 chat LLM calls on the evolving transcript (at
most maxIterations inside the loop plus the final no-tools call); the LLM
completions performed to execute skill tool calls are additional and not
bounded by maxIterations. -/
theorem toolLoop_chat_calls_le (env : LLMEnv) (get : String → Option SkillDefinition)
    (maxIterations : Nat) (messages : List ChatMessage) :
    (AgentService.runToolLoop env get maxIterations messages).chatCalls ≤ maxIterations + 1 := by
  simpa using toolLoopGo_chatCalls_le env get maxIterations messages 0 0 0

/-! Claim C9: bodiless registered skills in the tool loop. -/

/-- C9: when the first chat result carries one skill__ tool call whose
skill is registered but has no truthy instructions body, the recorded tool
result is exactly the not-found literal, no skill completion is made, and
the loop continues with another chat call. -/
theorem toolLoop_bodiless_skill_not_found (env : LLMEnv)
    (get : String → Option SkillDefinition) (maxIterations : Nat)
    (msgs : List ChatMessage) (tc : ToolCall) (sk : SkillDefinition)
    (hname : jsStartsWith tc.name "skill__" = true)
    (hreg : get (jsDrop tc.name 7) = some sk)
    (hbody : truthyStr sk.instructions = false)
    (h0 : (env.chat 0).toolCalls = some [tc])
    (h1 : (env.chat 1).toolCalls = none)
    (hmax : 2 ≤ maxIterations) :
    AgentService.runToolLoop env get maxIterations msgs =
      { text := (env.chat 1).content, chatCalls := 2, completeCalls := 0, mcpCalls := 0,
        transcript := msgs ++
          [{ role := Role.assistant, content := (env.chat 0).content },
           { role := Role.tool, content := "Skill " ++ jsDrop tc.name 7 ++ " not found",
             toolCallId := some tc.id }] } := by
  obtain ⟨k, hk⟩ : ∃ k, maxIterations = k + 2 := ⟨maxIterations - 2, by omega⟩
  subst hk
  show AgentService.toolLoopGo env get (k + 1 + 1) msgs 0 0 0 = _
  simp only [AgentService.toolLoopGo, h0, noToolCalls, List.isEmpty_cons, Bool.false_eq_true,
    if_false, Option.getD_some, AgentService.execToolCalls, AgentService.execToolCall,
    hname, if_true, hreg, hbody, h1]
  simp [List.append_assoc]

/-- C9 witness: the sum skill is registered without an instructions body;
the first chat result calls it, the tool result is the not-found literal,
no completion happens, and the loop returns the second chat result. -/
theorem toolLoop_bodiless_skill_not_found_witness :
    AgentService.runToolLoop envSkillOnce regSumNoBody 5 [] =
      { text := (envSkillOnce.chat 1).content, chatCalls := 2, completeCalls := 0, mcpCalls := 0,
        transcript :=
          [{ role := Role.assistant, content := (envSkillOnce.chat 0).content },
           { role := Role.tool, content := "Skill " ++ jsDrop tcSum.name 7 ++ " not found",
             toolCallId := some tcSum.id }] } := by
  have h := toolLoop_bodiless_skill_not_found envSkillOnce regSumNoBody 5 [] tcSum skSumNoBody
    (by decide) (by decide) (by decide) (by decide) (by decide) (by decide)
  simpa using h

/-! Claim C3: the empty-argument substitution literal of slash dispatch. -/

/-- Replacement output on a non-empty input is non-empty when the
replacement text is non-empty. -/
theorem replaceAllAux_ne_nil (pat repl : List Char) (hr : repl ≠ [])
    (fuel : Nat) (c : Char) (rest : List Char) :
    replaceAllAux pat repl fuel (c :: rest) ≠ [] := by
  cases fuel with
  | zero => simp [replaceAllAux]
  | succ n =>
    simp only [replaceAllAux]
    cases h : pat.isPrefixOf (c :: rest) with
    | true => simp [h, hr]
    | false => simp [h]

/-- Substituting into a non-empty skill body with the non-empty fallback
yields a non-empty system prompt. -/
theorem substituteArguments_empty_ne (inst : String) (h : inst ≠ "") :
    substituteArguments inst "" "(no arguments provided)" ≠ "" := by
  have hd : inst.data ≠ [] := by
    intro hc
    apply h
    cases inst
    simp at hc
    simp [hc]
  intro hc
  rw [String.ext_iff] at hc
  cases hdata : inst.data with
  | nil => exact hd hdata
  | cons c rest =>
    apply replaceAllAux_ne_nil "$ARGUMENTS".data "(no arguments provided)".data (by decide)
      (inst.data.length) c rest
    simpa [substituteArguments, jsReplaceAll, hdata] using hc

/-- C3 counterexample: dispatching the sum skill with empty argument text
produces the system prompt with the literal no-arguments-provided marker,
which differs from the no-arguments literal the claim states. -/
theorem slash_skillmd_empty_args_counterexample :
    AgentService.handleMessage (fun _ => true) regSumSkill msgSlashSum
        = HandleAction.skillTask "Do: (no arguments provided)" "/sum" ∧
      "Do: (no arguments provided)" ≠ "Do: (no arguments)" := by
  constructor <;> decide

/-- C3 amended: a slash command dispatching to a SKILL.md skill with empty
argument text replaces every occurrence of $ARGUMENTS in the skill body
with the literal string (no arguments provided), and the result is used as
the system prompt of the single LLM completion whose user prompt is the
raw message text. -/
theorem slash_skillmd_empty_args_substitution
    (channelKnown : String → Bool) (get : String → Option SkillDefinition)
    (msg : NormalizedMessage) (name : String) (sk : SkillDefinition) (inst : String)
    (hch : channelKnown msg.channelId = true)
    (hparse : SkillHandler.parseSlashCommand msg.text = some (name, ""))
    (hreg : get name = some sk)
    (hui : sk.userInvocable = true)
    (hex : sk.hasExecute = false)
    (hinst : sk.instructions = some inst)
    (hne : inst ≠ "") :
    AgentService.handleMessage channelKnown get msg =
      HandleAction.skillTask (substituteArguments inst "" "(no arguments provided)") msg.text := by
  have htru : truthyStr sk.instructions = true := by
    rw [hinst]
    simp [truthyStr, hne]
  have hdisp : SkillHandler.dispatch get msg.text =
      SkillDispatch.skillmdHandled name ""
        (substituteArguments inst "" "(no arguments provided)") := by
    simp only [SkillHandler.dispatch, hparse, hreg, hui, hex, htru, Bool.not_true,
      Bool.false_eq_true, if_false, if_true]
    simp [hinst]
  have hsub := substituteArguments_empty_ne inst hne
  simp only [AgentService.handleMessage, hch, Bool.not_true, Bool.false_eq_true, if_false, hdisp]
  simp [hsub]

/-- C3 witness: the concrete sum skill body gets the no-arguments-provided
literal substituted. -/
theorem slash_skillmd_empty_args_substitution_witness :
    AgentService.handleMessage (fun _ => true) regSumSkill msgSlashSum =
      HandleAction.skillTask (substituteArguments "Do: $ARGUMENTS" "" "(no arguments provided)")
        msgSlashSum.text :=
  slash_skillmd_empty_args_substitution (fun _ => true) regSumSkill msgSlashSum "sum"
    { name := "sum", instructions := some "Do: $ARGUMENTS", source := SkillSource.skillmd }
    "Do: $ARGUMENTS" rfl (by decide) (by decide) rfl rfl rfl (by decide)

/-! Claim C10: unresolvable slash commands fall through to the pipeline. -/

/-- C10: a slash message whose name does not resolve to a registered,
user-invocable skill with an executor or an instructions body is reported
not handled by dispatch, and handleMessage routes it to the normal
conversation pipeline. -/
theorem slash_unresolved_skill_runs_pipeline
    (channelKnown : String → Bool) (get : String → Option SkillDefinition)
    (msg : NormalizedMessage) (name args : String)
    (hch : channelKnown msg.channelId = true)
    (hparse : SkillHandler.parseSlashCommand msg.text = some (name, args))
    (hskill : ∀ sk, get name = some sk →
      sk.userInvocable = false ∨ (sk.hasExecute = false ∧ truthyStr sk.instructions = false)) :
    SkillHandler.dispatch get msg.text = SkillDispatch.notHandled ∧
    AgentService.handleMessage channelKnown get msg = HandleAction.normalPipeline := by
  have hdisp : SkillHandler.dispatch get msg.text = SkillDispatch.notHandled := by
    simp only [SkillHandler.dispatch, hparse]
    cases hg : get name with
    | none => rfl
    | some sk =>
      rcases hskill sk hg with h | ⟨h1, h2⟩
      · simp [h]
      · cases hu : sk.userInvocable <;> simp [hu, h1, h2]
  refine ⟨hdisp, ?_⟩
  simp [AgentService.handleMessage, hch, hdisp]

/-- C10 witness: the registered foo skill has neither executor nor body,
so the slash message runs the normal pipeline. -/
theorem slash_unresolved_skill_runs_pipeline_witness :
    SkillHandler.dispatch regFooHollow msgSlashFoo.text = SkillDispatch.notHandled ∧
    AgentService.handleMessage (fun _ => true) regFooHollow msgSlashFoo
      = HandleAction.normalPipeline :=
  slash_unresolved_skill_runs_pipeline (fun _ => true) regFooHollow msgSlashFoo "foo" "bar"
    rfl (by decide)
    (by
      intro sk h
      simp only [regFooHollow, if_pos, Option.some.injEq] at h
      subst h
      exact Or.inr ⟨rfl, rfl⟩)

/-! Claim C4: task recovery empties the active tree. -/

/-- Looking up the id of the head entry finds its task. -/
theorem lookupTask_head (k : String) (t : PersistedTask) (rest : List (String × PersistedTask)) :
    lookupTask ((k, t) :: rest) k = some t := by
  simp [lookupTask, List.find?_cons_of_pos]

/-- A key present in no entry is not found. -/
theorem findTask_eq_none (l : List (String × PersistedTask)) (k : String)
    (h : k ∉ l.map (fun p => p.1)) : l.find? (fun p => p.1 == k) = none := by
  rw [List.find?_eq_none]
  intro x hx hbeq
  apply h
  rw [List.mem_map]
  exact ⟨x, hx, by simpa using hbeq⟩

/-- Writing a fresh key appends the entry. -/
theorem putTask_not_mem (l : List (String × PersistedTask)) (k : String) (t : PersistedTask)
    (h : k ∉ l.map (fun p => p.1)) : putTask l k t = l ++ [(k, t)] := by
  simp [putTask, findTask_eq_none l k h]

/-- Unlinking the head entry by its key leaves the tail. -/
theorem eraseTask_head (k : String) (t : PersistedTask) (rest : List (String × PersistedTask)) :
    eraseTask ((k, t) :: rest) k = rest := by
  simp [eraseTask, List.eraseP_cons_of_pos]

/-- Overwriting the head entry by its key replaces only it when the tail
does not repeat the key. -/
theorem putTask_head_replace (k : String) (t t' : PersistedTask)
    (rest : List (String × PersistedTask)) (h : k ∉ rest.map (fun p => p.1)) :
    putTask ((k, t) :: rest) k t' = (k, t') :: rest := by
  have hne : ∀ p ∈ rest, (if p.1 = k then (k, t') else p) = id p := by
    intro p hp
    have h1 : p.1 ≠ k := by
      intro he
      exact h (List.mem_map.mpr ⟨p, hp, he⟩)
    simp [h1]
  simp only [putTask, List.find?_cons_of_pos, Option.isSome_some, if_true, List.map_cons,
    beq_self_eq_true, if_pos, beq_iff_eq]
  rw [List.map_congr_left hne, List.map_id]

/-- One recovery step on the head task moves it, possibly marked failed,
from the active to the completed tree. -/
theorem recoverTask_head_shape (channelKnown : String → Bool)
    (sendResult : String → Option String) (k : String) (t : PersistedTask)
    (rest comp : List (String × PersistedTask))
    (hkt : k = t.id) (hkrest : k ∉ rest.map (fun p => p.1))
    (hkcomp : k ∉ comp.map (fun q => q.1)) :
    ∃ t' : PersistedTask,
      TaskRecoveryService.recoverTask channelKnown sendResult
          { enabled := true, active := (k, t) :: rest, completed := comp } t
        = { enabled := true, active := rest, completed := comp ++ [(k, t')] } := by
  unfold TaskRecoveryService.recoverTask
  cases hth : (if TaskRecoveryService.sendAttempted channelKnown t then sendResult t.id
               else none) with
  | none =>
    refine ⟨t, ?_⟩
    simp only [TaskPersistence.complete, Bool.not_true, Bool.false_eq_true, if_false]
    rw [← hkt, lookupTask_head]
    simp [eraseTask_head, putTask_not_mem comp k t hkcomp]
  | some err =>
    refine ⟨{ t with phase := TaskPhase.failed, error := some ("Recovery failed: " ++ err) }, ?_⟩
    simp only [TaskPersistence.fail, Bool.not_true, Bool.false_eq_true, if_false]
    rw [← hkt, lookupTask_head]
    simp only [putTask_head_replace k t _ rest hkrest, TaskPersistence.complete,
      Bool.not_true, Bool.false_eq_true, if_false]
    rw [lookupTask_head]
    simp [eraseTask_head, putTask_not_mem comp k _ hkcomp, ← hkt]

/-- Folding recovery over the snapshot of a consistent active tree empties
it and appends one completed entry per task, in order. -/
theorem recover_fold_spec (channelKnown : String → Bool)
    (sendResult : String → Option String) :
    ∀ (l comp : List (String × PersistedTask)),
      (l.map (fun p => p.1)).Nodup →
      (∀ p ∈ l, p.1 = p.2.id) →
      (∀ p ∈ l, p.1 ∉ comp.map (fun q => q.1)) →
      ((l.map (fun p => p.2)).foldl (TaskRecoveryService.recoverTask channelKnown sendResult)
          { enabled := true, active := l, completed := comp }).active = [] ∧
      ((l.map (fun p => p.2)).foldl (TaskRecoveryService.recoverTask channelKnown sendResult)
          { enabled := true, active := l, completed := comp }).completed.map (fun q => q.1)
        = comp.map (fun q => q.1) ++ l.map (fun p => p.1) := by
  intro l
  induction l with
  | nil =>
    intro comp _ _ _
    simp
  | cons p rest ih =>
    obtain ⟨k, t⟩ := p
    intro comp hnd hid hdisj
    have hkt : k = t.id := hid (k, t) (List.mem_cons_self _ _)
    rw [List.map_cons] at hnd
    have hnd' := List.nodup_cons.mp hnd
    have hkrest : k ∉ rest.map (fun p => p.1) := hnd'.1
    have hkcomp : k ∉ comp.map (fun q => q.1) := hdisj (k, t) (List.mem_cons_self _ _)
    obtain ⟨t', ht'⟩ := recoverTask_head_shape channelKnown sendResult k t rest comp
      hkt hkrest hkcomp
    have hdisj' : ∀ p ∈ rest, p.1 ∉ (comp ++ [(k, t')]).map (fun q => q.1) := by
      intro p hp
      rw [List.map_append, List.mem_append]
      rintro (hin | hin)
      · exact hdisj p (List.mem_cons_of_mem _ hp) hin
      · simp only [List.map_cons, List.map_nil, List.mem_singleton] at hin
        exact hkrest (List.mem_map.mpr ⟨p, hp, hin⟩)
    have hrec := ih (comp ++ [(k, t')]) hnd'.2 (fun p hp => hid p (List.mem_cons_of_mem _ hp))
      hdisj'
    simp only [List.map_cons, List.foldl_cons, ht']
    refine ⟨hrec.1, ?_⟩
    rw [hrec.2, List.map_append]
    simp

/-- C4: with task persistence enabled, starting recovery on a consistent
active tree of N orphaned task files produces zero active files and N
completed files bearing the same task ids, whatever the per-task channel
send outcomes (successful sends and throwing sends alike). -/
theorem task_recovery_clears_active (channelKnown : String → Bool)
    (sendResult : String → Option String) (st : TaskStoreState)
    (hen : st.enabled = true)
    (hnodup : (st.active.map (fun p => p.1)).Nodup)
    (hid : ∀ p ∈ st.active, p.1 = p.2.id)
    (hcomp : st.completed = []) :
    (TaskRecoveryService.recover channelKnown sendResult st).active = [] ∧
    (TaskRecoveryService.recover channelKnown sendResult st).completed.length
        = st.active.length ∧
    (TaskRecoveryService.recover channelKnown sendResult st).completed.map (fun p => p.1)
        = st.active.map (fun p => p.1) := by
  obtain ⟨e, act, comp⟩ := st
  simp only at hen hnodup hid hcomp
  subst hen
  subst hcomp
  have h := recover_fold_spec channelKnown sendResult act [] hnodup hid (by simp)
  have hfold : TaskRecoveryService.recover channelKnown sendResult
      { enabled := true, active := act, completed := [] }
      = (act.map (fun p => p.2)).foldl
          (TaskRecoveryService.recoverTask channelKnown sendResult)
          { enabled := true, active := act, completed := [] } := by
    simp [TaskRecoveryService.recover, TaskPersistence.listActive]
  rw [hfold]
  refine ⟨h.1, ?_, by simpa using h.2⟩
  have hlen := congrArg List.length h.2
  simpa using hlen

/-- C4 witness: two orphaned tasks, one of whose recovery sends throws,
both end up completed and the active tree is empty. -/
theorem task_recovery_clears_active_witness :
    (TaskRecoveryService.recover (fun _ => true) sendFailsForA taskStoreTwo).active = [] ∧
    (TaskRecoveryService.recover (fun _ => true) sendFailsForA taskStoreTwo).completed.length
        = taskStoreTwo.active.length ∧
    (TaskRecoveryService.recover (fun _ => true) sendFailsForA taskStoreTwo).completed.map
        (fun p => p.1)
      = taskStoreTwo.active.map (fun p => p.1) :=
  task_recovery_clears_active (fun _ => true) sendFailsForA taskStoreTwo rfl
    (by decide) (by decide) rfl

/-! Claims C1 and C8: lemma toolkit for the segmented history store. -/

/-- The prune loop keeps the newest maxSegments segments, unlinking and
returning the evicted prefix. -/
theorem pruneSegments_spec (m : Nat) :
    ∀ (l : List SegmentMeta) (files : String → Option (List HistoryEntry)),
      pruneSegments m l files
        = (l.drop (l.length - m), unlinkFiles (l.take (l.length - m)) files,
           l.take (l.length - m)) := by
  intro l
  induction l with
  | nil => intro files; simp [pruneSegments, unlinkFiles]
  | cons s rest ih =>
    intro files
    simp only [pruneSegments]
    by_cases h : m < rest.length + 1
    · rw [if_pos h]
      have hsub : (s :: rest).length - m = (rest.length - m) + 1 := by
        simp only [List.length_cons]
        omega
      rw [ih]
      simp only [hsub, List.drop_succ_cons, List.take_succ_cons, unlinkFiles]
    · rw [if_neg h]
      have hsub : rest.length + 1 - m = 0 := by omega
      simp [List.length_cons, hsub, unlinkFiles]

/-- Unlinking segments whose files do not include a name leaves that name
unchanged in the file map. -/
theorem unlinkFiles_not_mem :
    ∀ (segs : List SegmentMeta) (files : String → Option (List HistoryEntry)) (name : String),
      name ∉ segs.map (fun s => s.file) → unlinkFiles segs files name = files name := by
  intro segs
  induction segs with
  | nil => intro files name _; rfl
  | cons s rest ih =>
    intro files name h
    simp only [List.map_cons, List.mem_cons] at h
    push_neg at h
    simp only [unlinkFiles]
    rw [ih _ _ h.2]
    simp [h.1]

/-- The head of a non-trivial chain starts at the chain's seed. -/
theorem chainOk_head (f : Nat) (s : SegmentMeta) (t : List SegmentMeta)
    (h : chainOk f (s :: t) = true) : s.firstSeq = f := by
  simp only [chainOk, Bool.and_eq_true, beq_iff_eq] at h
  exact h.1.1

/-- Reseeding a chain at its own head firstSeq keeps it a chain. -/
theorem chainOk_headFirst (l : List SegmentMeta) (f : Nat) (h : chainOk f l = true) :
    chainOk (headFirst l) l = true := by
  cases l with
  | nil => rfl
  | cons x t =>
    simp only [chainOk, Bool.and_eq_true, beq_iff_eq, headFirst] at h ⊢
    exact ⟨⟨by trivial, h.1.2⟩, h.2⟩

/-- Chain characterisation of appending one segment at the back. -/
theorem chainOk_append_iff (s : SegmentMeta) :
    ∀ (l : List SegmentMeta) (f : Nat),
      chainOk f (l ++ [s]) = true ↔
        (chainOk f l = true ∧ s.firstSeq = expectNext f l ∧ s.firstSeq ≤ s.lastSeq) := by
  intro l
  induction l with
  | nil =>
    intro f
    simp [chainOk, expectNext]
  | cons x xs ih =>
    intro f
    rw [List.cons_append]
    simp only [chainOk, Bool.and_eq_true, beq_iff_eq, decide_eq_true_eq, expectNext]
    rw [ih (x.lastSeq + 1)]
    tauto

/-- The seq expected after a chain ending in a given segment. -/
theorem expectNext_append (s : SegmentMeta) :
    ∀ (l : List SegmentMeta) (f : Nat), expectNext f (l ++ [s]) = s.lastSeq + 1 := by
  intro l
  induction l with
  | nil => intro f; rfl
  | cons x xs ih => intro f; exact ih (x.lastSeq + 1)

/-- The expected next seq of a non-empty list is its last segment's
lastSeq + 1. -/
theorem expectNext_getLast :
    ∀ (l : List SegmentMeta) (hne : l ≠ []) (f : Nat),
      expectNext f l = (l.getLast hne).lastSeq + 1 := by
  intro l
  induction l with
  | nil => intro hne; cases hne rfl
  | cons x xs ih =>
    intro hne f
    cases xs with
    | nil => rfl
    | cons y ys =>
      have h1 : expectNext f (x :: y :: ys) = expectNext (x.lastSeq + 1) (y :: ys) := rfl
      have h2 : (x :: y :: ys).getLast hne = (y :: ys).getLast (List.cons_ne_nil y ys) := by
        simp [List.getLast_cons]
      rw [h1, h2, ih (List.cons_ne_nil y ys)]

/-- Dropping a prefix of a chain leaves a chain seeded at the new head. -/
theorem chainOk_drop (k : Nat) :
    ∀ (l : List SegmentMeta) (f : Nat), chainOk f l = true →
      chainOk (headFirst (l.drop k)) (l.drop k) = true := by
  induction k with
  | zero =>
    intro l f h
    simpa using chainOk_headFirst l f h
  | succ n ih =>
    intro l f h
    cases l with
    | nil => rfl
    | cons x t =>
      simp only [List.drop_succ_cons]
      simp only [chainOk, Bool.and_eq_true] at h
      exact ih t (x.lastSeq + 1) h.2

/-- The head of a list with one segment appended, when the base list is
replaced by another ending segment with equal firstSeq. -/
theorem headFirst_append_congr (base : List SegmentMeta) (x y : SegmentMeta)
    (h : y.firstSeq = x.firstSeq) :
    headFirst (base ++ [y]) = headFirst (base ++ [x]) := by
  cases base with
  | nil => simp [headFirst, h]
  | cons b bs => rfl

/-- Evaluation of addMessage when the index has no segments: a fresh
segment holding just the new entry is created and then pruned against the
limit. -/
theorem addMessage_of_nil (cfg : HistoryConfig) (st : ConvStore) (op : AddOp)
    (h : st.index.segments = []) :
    FileHistoryStore.addMessage cfg st op =
      ({ index := { nextSeq := st.index.nextSeq + 1,
                    segments := (pruneSegments cfg.maxSegments [rollSeg st op]
                      (appendTo st op op.newFile)).1 },
         files := (pruneSegments cfg.maxSegments [rollSeg st op]
           (appendTo st op op.newFile)).2.1,
         dirExists := true },
       (pruneSegments cfg.maxSegments [rollSeg st op] (appendTo st op op.newFile)).2.2) := by
  simp only [FileHistoryStore.addMessage, h]
  rfl

/-- Evaluation of addMessage when the last segment still has room: the
entry is appended to it in place. -/
theorem addMessage_of_concat_stay (cfg : HistoryConfig) (st : ConvStore) (op : AddOp)
    (base : List SegmentMeta) (cur : SegmentMeta)
    (h : st.index.segments = base ++ [cur])
    (hstay : ¬ cfg.maxSegmentSizeBytes ≤ cur.sizeBytes) :
    FileHistoryStore.addMessage cfg st op =
      ({ index := { nextSeq := st.index.nextSeq + 1,
                    segments := (pruneSegments cfg.maxSegments (base ++ [stayedSeg st op cur])
                      (appendTo st op cur.file)).1 },
         files := (pruneSegments cfg.maxSegments (base ++ [stayedSeg st op cur])
           (appendTo st op cur.file)).2.1,
         dirExists := true },
       (pruneSegments cfg.maxSegments (base ++ [stayedSeg st op cur])
         (appendTo st op cur.file)).2.2) := by
  have hn : (base ++ [cur]).getLast? = some cur := List.getLast?_concat _
  simp only [FileHistoryStore.addMessage, h, hn, decide_eq_false hstay, Bool.false_eq_true,
    if_false, Option.getD_some, List.dropLast_concat]
  rfl

/-- Evaluation of addMessage when the last segment is full: a fresh
segment holding just the new entry is appended after the old ones. -/
theorem addMessage_of_concat_roll (cfg : HistoryConfig) (st : ConvStore) (op : AddOp)
    (base : List SegmentMeta) (cur : SegmentMeta)
    (h : st.index.segments = base ++ [cur])
    (hroll : cfg.maxSegmentSizeBytes ≤ cur.sizeBytes) :
    FileHistoryStore.addMessage cfg st op =
      ({ index := { nextSeq := st.index.nextSeq + 1,
                    segments := (pruneSegments cfg.maxSegments ((base ++ [cur]) ++ [rollSeg st op])
                      (appendTo st op op.newFile)).1 },
         files := (pruneSegments cfg.maxSegments ((base ++ [cur]) ++ [rollSeg st op])
           (appendTo st op op.newFile)).2.1,
         dirExists := true },
       (pruneSegments cfg.maxSegments ((base ++ [cur]) ++ [rollSeg st op])
         (appendTo st op op.newFile)).2.2) := by
  have hn : (base ++ [cur]).getLast? = some cur := List.getLast?_concat _
  have hn2 : ∀ s : SegmentMeta, ((base ++ [cur]) ++ [s]).getLast? = some s :=
    fun s => List.getLast?_concat _
  simp only [FileHistoryStore.addMessage, h, hn, decide_eq_true hroll, if_true, hn2,
    Option.getD_some, List.dropLast_concat]
  rfl

/-- The head of a non-empty list is unchanged by appending a segment. -/
theorem headFirst_append_ne (l : List SegmentMeta) (x : SegmentMeta) (h : l ≠ []) :
    headFirst (l ++ [x]) = headFirst l := by
  cases l with
  | nil => cases h rfl
  | cons b bs => rfl

/-- Pruning a chained non-empty segment list whose last segment ends at n
yields an invariant-satisfying list for nextSeq = n + 1, and preserves the
head when nothing was evicted (stated on the drop/take normal form of the
prune loop). -/
theorem prune_step (m : Nat) (hm : 1 ≤ m) (A : List SegmentMeta) (curX : SegmentMeta)
    (n : Nat)
    (hch : chainOk (headFirst (A ++ [curX])) (A ++ [curX]) = true)
    (hlast : curX.lastSeq = n) :
    segsInv ((A ++ [curX]).drop ((A ++ [curX]).length - m)) (n + 1) ∧
    ((A ++ [curX]).take ((A ++ [curX]).length - m) = [] →
      headFirst ((A ++ [curX]).drop ((A ++ [curX]).length - m)) = headFirst (A ++ [curX])) := by
  have hkA : (A ++ [curX]).length - m ≤ A.length := by
    simp only [List.length_append, List.length_cons, List.length_nil]
    omega
  have hdrop : (A ++ [curX]).drop ((A ++ [curX]).length - m)
      = A.drop ((A ++ [curX]).length - m) ++ [curX] := by
    rw [List.drop_append_eq_append_drop, Nat.sub_eq_zero_of_le hkA, List.drop_zero]
  constructor
  · refine ⟨?_, ?_⟩
    · exact chainOk_drop ((A ++ [curX]).length - m) (A ++ [curX]) _ hch
    · rw [hdrop, expectNext_append, hlast]
  · intro hev
    have hk0 : (A ++ [curX]).length - m = 0 := by
      rcases List.take_eq_nil_iff.mp hev with h0 | h0
      · exact h0
      · cases List.append_ne_nil_of_right_ne_nil A (by simp : [curX] ≠ []) h0
    rw [hk0, List.drop_zero]

/-- One addMessage call preserves the index invariant and, when nothing
was evicted, the first segment's firstSeq. -/
theorem addMessage_preserves (cfg : HistoryConfig) (hm : 1 ≤ cfg.maxSegments)
    (st : ConvStore) (op : AddOp)
    (hinv : segsInv st.index.segments st.index.nextSeq) :
    segsInv (FileHistoryStore.addMessage cfg st op).1.index.segments
      (FileHistoryStore.addMessage cfg st op).1.index.nextSeq ∧
    ((FileHistoryStore.addMessage cfg st op).2 = [] →
      headFirst (FileHistoryStore.addMessage cfg st op).1.index.segments
        = headFirst st.index.segments) := by
  obtain ⟨hchain, hnext⟩ := hinv
  rcases List.eq_nil_or_concat st.index.segments with hnil | ⟨base, cur, hl⟩
  · -- empty index: the first segment is created
    rw [addMessage_of_nil cfg st op hnil]
    rw [hnil] at hchain hnext
    simp only [headFirst, expectNext] at hnext
    have hch : chainOk (headFirst (([] : List SegmentMeta) ++ [rollSeg st op]))
        (([] : List SegmentMeta) ++ [rollSeg st op]) = true := by
      simp [headFirst, chainOk, rollSeg]
    have hp := prune_step cfg.maxSegments hm [] (rollSeg st op) st.index.nextSeq hch rfl
    simp only [List.nil_append] at hp
    rw [pruneSegments_spec]
    dsimp only
    refine ⟨hp.1, fun hev => ?_⟩
    rw [hp.2 hev, hnil]
    simp [headFirst, rollSeg, hnext]
  · rw [List.concat_eq_append] at hl
    by_cases hroll : cfg.maxSegmentSizeBytes ≤ cur.sizeBytes
    · -- rollover: a fresh segment is appended after the chain
      rw [addMessage_of_concat_roll cfg st op base cur hl hroll]
      rw [hl] at hchain hnext
      rw [expectNext_append] at hnext
      have hbase_ne : base ++ [cur] ≠ [] :=
        List.append_ne_nil_of_right_ne_nil base (by simp)
      have hch : chainOk (headFirst ((base ++ [cur]) ++ [rollSeg st op]))
          ((base ++ [cur]) ++ [rollSeg st op]) = true := by
        apply chainOk_headFirst _ (headFirst (base ++ [cur]))
        rw [chainOk_append_iff]
        refine ⟨hchain, ?_, le_refl _⟩
        rw [expectNext_append]
        exact hnext
      have hp := prune_step cfg.maxSegments hm (base ++ [cur]) (rollSeg st op)
        st.index.nextSeq hch rfl
      rw [pruneSegments_spec]
      dsimp only
      refine ⟨hp.1, fun hev => ?_⟩
      rw [hp.2 hev, hl, headFirst_append_ne _ _ hbase_ne]
    · -- in-place append to the last segment
      rw [addMessage_of_concat_stay cfg st op base cur hl hroll]
      rw [hl] at hchain hnext
      rw [expectNext_append] at hnext
      rw [chainOk_append_iff] at hchain
      obtain ⟨hcb, hcf, hcle⟩ := hchain
      have hch : chainOk (headFirst (base ++ [stayedSeg st op cur]))
          (base ++ [stayedSeg st op cur]) = true := by
        apply chainOk_headFirst _ (headFirst (base ++ [cur]))
        rw [chainOk_append_iff]
        refine ⟨hcb, hcf, ?_⟩
        simp only [stayedSeg]
        omega
      have hp := prune_step cfg.maxSegments hm base (stayedSeg st op cur)
        st.index.nextSeq hch rfl
      rw [pruneSegments_spec]
      dsimp only
      refine ⟨hp.1, fun hev => ?_⟩
      rw [hp.2 hev, hl]
      exact headFirst_append_congr base cur (stayedSeg st op cur) rfl

/-- The run invariant: folding addMessage calls preserves the index
invariant, and when the whole run evicted nothing, the head firstSeq. -/
theorem runAdds_fold_inv (cfg : HistoryConfig) (hm : 1 ≤ cfg.maxSegments) :
    ∀ (ops : List AddOp) (st : ConvStore) (ev : List SegmentMeta),
      segsInv st.index.segments st.index.nextSeq →
      segsInv (ops.foldl (addStep cfg) (st, ev)).1.index.segments
          (ops.foldl (addStep cfg) (st, ev)).1.index.nextSeq ∧
      ((ops.foldl (addStep cfg) (st, ev)).2 = [] →
        ev = [] ∧
        headFirst (ops.foldl (addStep cfg) (st, ev)).1.index.segments
          = headFirst st.index.segments) := by
  intro ops
  induction ops with
  | nil => intro st ev hinv; exact ⟨hinv, fun h => ⟨h, rfl⟩⟩
  | cons op rest ih =>
    intro st ev hinv
    have hstep := addMessage_preserves cfg hm st op hinv
    simp only [List.foldl_cons, addStep]
    have hrec := ih (FileHistoryStore.addMessage cfg st op).1
      (ev ++ (FileHistoryStore.addMessage cfg st op).2) hstep.1
    refine ⟨hrec.1, fun hev => ?_⟩
    obtain ⟨hev2, hhead⟩ := hrec.2 hev
    have hev3 := List.append_eq_nil.mp hev2
    exact ⟨hev3.1, by rw [hhead, hstep.2 hev3.2]⟩

/-- The invariant implies the contiguity Bool predicate. -/
theorem segsContiguous_of_inv (segments : List SegmentMeta) (nextSeq : Nat)
    (h : segsInv segments nextSeq) : segsContiguous segments nextSeq = true := by
  obtain ⟨h1, h2⟩ := h
  cases segments with
  | nil =>
    simp only [headFirst, expectNext] at h2
    simp [segsContiguous, h2]
  | cons s t =>
    simp only [segsContiguous, Bool.and_eq_true]
    constructor
    · simpa [headFirst] using h1
    · rw [expectNext_getLast (s :: t) (List.cons_ne_nil s t) (headFirst (s :: t))] at h2
      simp [h2]

/-- The invariant plus head firstSeq 1 implies the claim's predicate. -/
theorem claimC1Seg_of_inv (segments : List SegmentMeta) (nextSeq : Nat)
    (h : segsInv segments nextSeq) (hhead : headFirst segments = 1) :
    claimC1Seg segments nextSeq = true := by
  simp only [claimC1Seg, Bool.and_eq_true]
  refine ⟨segsContiguous_of_inv _ _ h, ?_⟩
  cases segments with
  | nil => rfl
  | cons s t => simpa [headFirst] using hhead

/-- C1 amended: after any run of addMessage calls (with a positive segment
limit), the persisted index has strictly increasing, contiguous,
non-overlapping seq ranges with nextSeq = last lastSeq + 1 (1 when empty);
and as long as no segment has been evicted by the maxSegments limit, the
first segment's firstSeq is additionally 1. -/
theorem history_index_invariant (cfg : HistoryConfig) (ops : List AddOp)
    (hm : 1 ≤ cfg.maxSegments) :
    indexContiguous (runAdds cfg ops).1.index = true ∧
    ((runAdds cfg ops).2 = [] → claimC1Index (runAdds cfg ops).1.index = true) := by
  have hbase : segsInv emptyConvStore.index.segments emptyConvStore.index.nextSeq := ⟨rfl, rfl⟩
  have h := runAdds_fold_inv cfg hm ops emptyConvStore [] hbase
  simp only [runAdds]
  refine ⟨segsContiguous_of_inv _ _ h.1, fun hev => ?_⟩
  obtain ⟨-, hhead⟩ := h.2 hev
  exact claimC1Seg_of_inv _ _ h.1 (by rw [hhead]; rfl)

/-- C1 witness: two small appends under the default configuration keep the
claim's full index property. -/
theorem history_index_invariant_witness :
    claimC1Index (runAdds {} [smallOp Role.user "hi" "T1" "f1",
      smallOp Role.assistant "yo" "T2" "f2"]).1.index = true :=
  (history_index_invariant {} [smallOp Role.user "hi" "T1" "f1",
      smallOp Role.assistant "yo" "T2" "f2"] (by decide)).2 (by decide)

/-- C1 counterexample: under the default configuration, 21 appends whose
serialised lines each fill a whole segment evict the oldest segment, after
which the first segment's firstSeq is 2, falsifying the claim's index
property as stated. -/
theorem history_firstseq_counterexample :
    claimC1Index (runAdds {} ((List.range 21).map hugeOp)).1.index = false := by
  decide

/-- With limit 1 and a non-empty accumulator, the segment walk stops. -/
theorem readSegments_stop (files : String → Option (List HistoryEntry))
    (rest : List SegmentMeta) (acc : List HistoryEntry) (h : acc ≠ []) :
    readSegments files 1 rest acc = acc := by
  cases rest with
  | nil => rfl
  | cons s t =>
    simp only [readSegments]
    have hlen : ¬ acc.length < 1 := by
      cases acc with
      | nil => exact absurd rfl h
      | cons a as => simp
    rw [if_neg hlen]

/-- getMessages with limit 1 on a store whose newest segment file ends
with a given entry returns exactly that entry. -/
theorem getMessages_one (cfg : HistoryConfig) (n : Nat) (A : List SegmentMeta)
    (curX : SegmentMeta) (files : String → Option (List HistoryEntry))
    (prior : List HistoryEntry) (entry : HistoryEntry)
    (hf : files curX.file = some (prior ++ [entry])) :
    FileHistoryStore.getMessages cfg
        { index := { nextSeq := n, segments := A ++ [curX] }, files := files,
          dirExists := true }
        (some 1) = [entryToChatMessage entry] := by
  have hie : (A ++ [curX]).isEmpty = false := by cases A <;> rfl
  have hrev : (A ++ [curX]).reverse = curX :: A.reverse := by simp
  simp only [FileHistoryStore.getMessages, Bool.not_true, Bool.false_eq_true, if_false, hie,
    Option.getD_some, hrev]
  simp only [readSegments, List.length_nil, Nat.zero_lt_one, if_true, hf, List.append_nil]
  rw [readSegments_stop _ _ _ (by simp)]
  have hlen : (prior ++ [entry]).length - 1 = prior.length := by simp
  rw [hlen, List.drop_left, List.map_singleton]

/-- getMessages with limit 1 right after a prune whose surviving newest
segment file ends with the given entry. -/
theorem getMessages_after_prune (cfg : HistoryConfig) (hm : 1 ≤ cfg.maxSegments)
    (A : List SegmentMeta) (curX : SegmentMeta) (n : Nat)
    (files : String → Option (List HistoryEntry)) (prior : List HistoryEntry)
    (entry : HistoryEntry)
    (hnot : curX.file ∉ A.map (fun s => s.file))
    (hf : files curX.file = some (prior ++ [entry])) :
    FileHistoryStore.getMessages cfg
      { index := { nextSeq := n,
                   segments := (A ++ [curX]).drop ((A ++ [curX]).length - cfg.maxSegments) },
        files := unlinkFiles ((A ++ [curX]).take ((A ++ [curX]).length - cfg.maxSegments)) files,
        dirExists := true }
      (some 1) = [entryToChatMessage entry] := by
  have hkA : (A ++ [curX]).length - cfg.maxSegments ≤ A.length := by
    simp only [List.length_append, List.length_cons, List.length_nil]
    omega
  have hdrop : (A ++ [curX]).drop ((A ++ [curX]).length - cfg.maxSegments)
      = A.drop ((A ++ [curX]).length - cfg.maxSegments) ++ [curX] := by
    rw [List.drop_append_eq_append_drop, Nat.sub_eq_zero_of_le hkA, List.drop_zero]
  have htake : (A ++ [curX]).take ((A ++ [curX]).length - cfg.maxSegments)
      = A.take ((A ++ [curX]).length - cfg.maxSegments) := by
    rw [List.take_append_eq_append_take, Nat.sub_eq_zero_of_le hkA, List.take_zero,
      List.append_nil]
  have hnot2 : curX.file
      ∉ (A.take ((A ++ [curX]).length - cfg.maxSegments)).map (fun s => s.file) := by
    intro hmem
    rcases List.mem_map.mp hmem with ⟨x, hx, he⟩
    exact hnot (List.mem_map.mpr ⟨x, List.take_subset _ _ hx, he⟩)
  have hf2 : unlinkFiles ((A ++ [curX]).take ((A ++ [curX]).length - cfg.maxSegments)) files
      curX.file = some (prior ++ [entry]) := by
    rw [htake, unlinkFiles_not_mem _ _ _ hnot2, hf]
  rw [hdrop]
  exact getMessages_one cfg n _ curX _ prior entry hf2

/-- Reading back the entry addMessage persisted recovers the message,
except that a present-but-empty toolCallId would be dropped. -/
theorem entryToChatMessage_mkEntry (seq : Nat) (op : AddOp)
    (htc : op.msg.toolCallId ≠ some "") :
    entryToChatMessage (mkEntry seq op) = op.msg := by
  have hkeep : (if truthyStr op.msg.toolCallId then op.msg.toolCallId else none)
      = op.msg.toolCallId := by
    cases h0 : op.msg.toolCallId with
    | none => simp [truthyStr]
    | some s =>
      have hs : s ≠ "" := by
        intro he
        exact htc (by rw [h0, he])
      simp [truthyStr, hs]
  simp only [entryToChatMessage, mkEntry, hkeep]

/-- C8 amended: adding a message and reading back with limit 1 returns a
one-element list equal to the message (same role, content and toolCallId),
provided the segment limit is positive, segment file names are distinct,
and the message's toolCallId is not the empty string (a present-but-empty
toolCallId is dropped by the read-back truthiness check). -/
theorem history_roundtrip (cfg : HistoryConfig) (st : ConvStore) (op : AddOp)
    (hm : 1 ≤ cfg.maxSegments)
    (hnodup : (st.index.segments.map (fun s => s.file)).Nodup)
    (hfresh : op.newFile ∉ st.index.segments.map (fun s => s.file))
    (htc : op.msg.toolCallId ≠ some "") :
    FileHistoryStore.getMessages cfg (FileHistoryStore.addMessage cfg st op).1 (some 1)
      = [op.msg] := by
  have hmsg := entryToChatMessage_mkEntry st.index.nextSeq op htc
  rcases List.eq_nil_or_concat st.index.segments with hnil | ⟨base, cur, hl⟩
  · rw [addMessage_of_nil cfg st op hnil, pruneSegments_spec]
    have hf : (appendTo st op op.newFile) (rollSeg st op).file
        = some (((st.files op.newFile).getD []) ++ [mkEntry st.index.nextSeq op]) := by
      simp [appendTo, rollSeg]
    have h := getMessages_after_prune cfg hm [] (rollSeg st op) (st.index.nextSeq + 1)
      (appendTo st op op.newFile) _ _ (by simp) hf
    exact h.trans (by rw [hmsg])
  · rw [List.concat_eq_append] at hl
    rw [hl, List.map_append] at hnodup hfresh
    have hcur_not : cur.file ∉ base.map (fun s => s.file) := by
      intro hmem
      exact (List.nodup_append.mp hnodup).2.2 hmem (by simp)
    by_cases hroll : cfg.maxSegmentSizeBytes ≤ cur.sizeBytes
    · rw [addMessage_of_concat_roll cfg st op base cur hl hroll, pruneSegments_spec]
      have hf : (appendTo st op op.newFile) (rollSeg st op).file
          = some (((st.files op.newFile).getD []) ++ [mkEntry st.index.nextSeq op]) := by
        simp [appendTo, rollSeg]
      have hnot : (rollSeg st op).file ∉ (base ++ [cur]).map (fun s => s.file) := by
        rw [List.map_append]
        exact hfresh
      have h := getMessages_after_prune cfg hm (base ++ [cur]) (rollSeg st op)
        (st.index.nextSeq + 1) (appendTo st op op.newFile) _ _ hnot hf
      exact h.trans (by rw [hmsg])
    · rw [addMessage_of_concat_stay cfg st op base cur hl hroll, pruneSegments_spec]
      have hf : (appendTo st op cur.file) (stayedSeg st op cur).file
          = some (((st.files cur.file).getD []) ++ [mkEntry st.index.nextSeq op]) := by
        simp [appendTo, stayedSeg]
      have h := getMessages_after_prune cfg hm base (stayedSeg st op cur)
        (st.index.nextSeq + 1) (appendTo st op cur.file) _ _ hcur_not hf
      exact h.trans (by rw [hmsg])

/-- C8 witness: one message appended to the empty store comes back
unchanged through getMessages with limit 1. -/
theorem history_roundtrip_witness :
    FileHistoryStore.getMessages {}
      (FileHistoryStore.addMessage {} emptyConvStore (smallOp Role.user "hi" "T1" "f1")).1
      (some 1) = [(smallOp Role.user "hi" "T1" "f1").msg] :=
  history_roundtrip {} emptyConvStore (smallOp Role.user "hi" "T1" "f1")
    (by decide) (by decide) (by decide) (by decide)

/-- C8 counterexample: a tool message whose toolCallId is present but
empty does not round-trip; the read-back message has no toolCallId. -/
theorem history_roundtrip_counterexample :
    FileHistoryStore.getMessages {}
      (FileHistoryStore.addMessage {} emptyConvStore
        { msg := { role := Role.tool, content := "r", toolCallId := some "" },
          now := "T", newFile := "f", bytesWritten := 10 }).1
      (some 1)
      ≠ [{ role := Role.tool, content := "r", toolCallId := some "" }] := by
  decide

end MessageAgent
